import Mathlib

/-!
Verification of the Customario voice-survey frontend.

This file gives a shallow embedding of the logic-bearing parts of the
repository and proves (or refutes) the specification claims about them:

* the session-end payment computation of
  `src/customario/src/components/FeedbackPanel.tsx` and the sibling
  computation in the `FeedbackResults` page,
* the `VoiceAgent` lifecycle of `src/customario/src/services/voiceAgent.ts`
  (completion-phrase detection, debounce, idempotent start/complete,
  transcript synchronisation from history snapshots),
* the Vapi message handler of `FeedbackPanel` (transcript deduplication),
* the survey-creation path of `src/customario/src/pages/AdminPage.tsx`.

JavaScript numbers are modelled as rationals (`ℚ`), JS strings as
`List Char` (so that case-insensitive substring search and trimming
compute in the kernel); asynchronous callbacks (`setTimeout`) are
modelled by an explicit schedule of deadlines inside the state.

The file is organised as definitions first, theorems second.
-/

namespace Customario

/-! ## Definitions -/

/-! ### JS string primitives -/

/-- JS strings of the embedding are lists of characters. -/
abbrev Str := List Char

/-- JS `hay.includes(needle)`: some drop of `hay` starts with `needle`. -/
def containsSub (hay needle : Str) : Bool :=
  (List.range (hay.length + 1)).any fun i => needle.isPrefixOf (hay.drop i)

/-- JS `String.prototype.toLowerCase`, character by character. -/
def lowerStr (s : Str) : Str := s.map Char.toLower

/-- JS `String.prototype.trim`: drop whitespace from both ends. -/
def trimStr (s : Str) : Str :=
  ((s.dropWhile Char.isWhitespace).reverse.dropWhile Char.isWhitespace).reverse

/-- Truthiness of an optional JS string field: present and nonempty. -/
def strTruthy : Option Str → Bool
  | some s => !s.isEmpty
  | none => false

/-- JS `a || b || ...` over string fields: first truthy value, else
the empty string. -/
def firstTruthy : List (Option Str) → Str
  | [] => []
  | some s :: rest => if s.isEmpty then firstTruthy rest else s
  | none :: rest => firstTruthy rest

/-! ### Payment amount formula

`src/customario/src/components/FeedbackPanel.tsx`, session-end effect
(lines 187-233), and the `FeedbackResults` page (unnamed source part_006,
lines 16-26). -/

namespace FeedbackPanel

/-- Amount computed by the session-end effect in `FeedbackPanel`:
`minutes = sessionDuration / 60`, `baseRate = (minPrice + maxPrice) / 2`,
`Math.min(maxPrice, Math.max(minPrice, (baseRate * minutes) / 10))`. -/
def calculatedAmount (sessionDuration minPrice maxPrice : ℚ) : ℚ :=
  let minutes := sessionDuration / 60
  let baseRate := (minPrice + maxPrice) / 2
  min maxPrice (max minPrice (baseRate * minutes / 10))

end FeedbackPanel

namespace FeedbackResults

/-- Amount computed by the `FeedbackResults` page effect (unnamed source
part_006): same duration-based formula as the panel. -/
def earnedAmount (sessionDuration minPrice maxPrice : ℚ) : ℚ :=
  let minutes := sessionDuration / 60
  let baseRate := (minPrice + maxPrice) / 2
  min maxPrice (max minPrice (baseRate * minutes / 10))

end FeedbackResults

/-! ### Session-end effect of `FeedbackPanel`

The effect fires when `!isSessionActive && sessionDuration > 0 &&
!sessionComplete`; it stores the clamped amount, marks the session
complete, stops recording, and dispatches one payment.  The async payment
IIFE logs success, logs failure, and catches thrown errors without
touching any component state. -/

/-- Outcome of the `paymentService.sendPayment` call as observed by the
session-end effect: a success response, a response with `success: false`,
or a thrown (network) error. -/
inductive PaymentOutcome
  | success (response : String)
  | failure (error : String)
  | thrown (error : String)
deriving DecidableEq

/-- Component state of `FeedbackPanel` relevant to session completion,
plus a counter of payment dispatches (each `paymentService.sendPayment`
call) and the amount last passed to the payment service. -/
structure PanelState where
  sessionComplete : Bool
  earnedAmount : ℚ
  isRecording : Bool
  paymentDispatches : ℕ
  lastPaymentAmount : Option ℚ
deriving DecidableEq

/-- Initial `useState` values of `FeedbackPanel`. -/
def initialPanelState : PanelState :=
  { sessionComplete := false
    earnedAmount := 0
    isRecording := false
    paymentDispatches := 0
    lastPaymentAmount := none }

/-- Props observed by one run of the session-end effect. -/
structure PanelInput where
  isSessionActive : Bool
  sessionDuration : ℚ
  minPrice : ℚ
  maxPrice : ℚ
deriving DecidableEq

/-- Guard of the session-end effect:
`!isSessionActive && sessionDuration > 0 && !sessionComplete`. -/
def sessionEndCheck (inp : PanelInput) (s : PanelState) : Bool :=
  !inp.isSessionActive && decide (0 < inp.sessionDuration) && !s.sessionComplete

/-- Synchronous part of the session-end effect: on a firing guard it
computes the clamped amount, stores it, marks the session complete and
dispatches the payment with that amount. -/
def sessionEndEffect (inp : PanelInput) (s : PanelState) : PanelState :=
  if sessionEndCheck inp s then
    let amt := FeedbackPanel.calculatedAmount inp.sessionDuration inp.minPrice inp.maxPrice
    { s with
        sessionComplete := true
        earnedAmount := amt
        isRecording := false
        paymentDispatches := s.paymentDispatches + 1
        lastPaymentAmount := some amt }
  else s

/-- Continuation of the async payment IIFE: every branch (success log,
failure log, catch of a thrown error) leaves the component state
untouched — "Don't block the UI if payment fails". -/
def paymentContinuation (outcome : PaymentOutcome) (s : PanelState) : PanelState :=
  match outcome with
  | .success _ => s
  | .failure _ => s
  | .thrown _ => s

/-- One full observation of the session-end condition: the effect runs,
then the payment (if dispatched) resolves with `outcome`. -/
def sessionEndStep (inp : PanelInput) (outcome : PaymentOutcome) (s : PanelState) : PanelState :=
  paymentContinuation outcome (sessionEndEffect inp s)

/-- A sequence of effect observations (re-renders, concurrent end
requests) applied in order. -/
def runPanel (steps : List (PanelInput × PaymentOutcome)) (s : PanelState) : PanelState :=
  steps.foldl (fun st p => sessionEndStep p.1 p.2 st) s

/-! ### VoiceAgent completion-phrase detection

`src/customario/src/services/voiceAgent.ts`: `checkSurveyCompletion`
lowercases an agent output and looks for one of four hardcoded closing
phrases as a substring (`String.prototype.includes`); `stop()` always
routes to `complete()` regardless of phrases. -/

namespace VoiceAgent

def phraseFeedback : Str := "thank you for your feedback".toList

def phraseCompletes : Str := "completes our survey".toList

def phraseTime : Str := "thank you so much for your time".toList

def phraseThatCompletes : Str := "that completes the survey".toList

/-- The four hardcoded closing phrases of `checkSurveyCompletion`, as the
spec's "configured closing-phrase set". -/
def closingPhrases : List Str :=
  [phraseFeedback, phraseCompletes, phraseTime, phraseThatCompletes]

/-- Phrase test of `VoiceAgent.checkSurveyCompletion` (voiceAgent.ts lines
325-336): lowercase the text, then the literal four-fold disjunction of
`includes` calls. -/
def checkSurveyCompletion (text : Str) : Bool :=
  let lowerText := lowerStr text
  containsSub lowerText phraseFeedback ||
    containsSub lowerText phraseCompletes ||
    containsSub lowerText phraseTime ||
    containsSub lowerText phraseThatCompletes

/-- The two completion triggers combined: an explicit end request
(`stop()`, which calls `complete()` unconditionally) or a phrase match on
an agent output. -/
def completionTriggered (explicitEndRequested : Bool) (text : Str) : Bool :=
  explicitEndRequested || checkSurveyCompletion text

/-! ### Transcript synchronisation from history snapshots

`VoiceAgent.syncTranscriptFromHistory` (voiceAgent.ts lines 283-323)
receives the *whole* conversation history on every `history_updated`
event, extracts the text of every message item in array order, and
replaces `this.transcript` when the result differs.  There are no
sequence numbers anywhere in this code path. -/

/-- One entry of the `VoiceAgent` transcript (`VoiceMessage`): `vtype` is
`"user"` or `"agent"`. -/
structure VoiceMessage where
  vtype : Str
  text : Str
deriving DecidableEq

/-- One content part of a `RealtimeItem` message: its `type` tag and the
optional `text` / `transcript` payloads the sync reads. -/
structure HistContent where
  ctype : Str
  text : Option Str
  transcript : Option Str
deriving DecidableEq

/-- One `RealtimeItem` of the SDK history as consumed by the sync:
item `type`, `role`, and content parts. -/
structure HistItem where
  itype : Str
  role : Str
  content : List HistContent
deriving DecidableEq

/-- Text selected from one content part: `input_text`/`output_text` read
`text`, `input_audio`/`output_audio` read `transcript` when truthy. -/
def contentText (c : HistContent) : Option Str :=
  if c.ctype = "input_text".toList then c.text
  else if c.ctype = "input_audio".toList ∧ strTruthy c.transcript then c.transcript
  else if c.ctype = "output_text".toList then c.text
  else if c.ctype = "output_audio".toList ∧ strTruthy c.transcript then c.transcript
  else none

/-- Messages contributed by one history item: only `message` items count;
each content part with truthy text whose trim is nonempty contributes its
trimmed text, tagged `user` for the user role and `agent` otherwise. -/
def itemMessages (item : HistItem) : List VoiceMessage :=
  if item.itype = "message".toList then
    item.content.filterMap fun c =>
      match contentText c with
      | some t =>
          if t ≠ [] ∧ trimStr t ≠ [] then
            some { vtype := if item.role = "user".toList then "user".toList else "agent".toList
                   text := trimStr t }
          else none
      | none => none
  else []

/-- `VoiceAgent.syncTranscriptFromHistory`: the extracted messages of a
history snapshot, in array order. -/
def syncTranscriptFromHistory (history : List HistItem) : List VoiceMessage :=
  (history.map itemMessages).flatten

/-- Transcript after one `history_updated` event: the extracted list
replaces the transcript when it differs (the `JSON.stringify`
comparison), otherwise the transcript is kept. -/
def transcriptAfterSync (history : List HistItem) (transcript : List VoiceMessage) :
    List VoiceMessage :=
  if syncTranscriptFromHistory history = transcript then transcript
  else syncTranscriptFromHistory history

/-- A user utterance item as the SDK history carries it. -/
def userItem (t : String) : HistItem :=
  { itype := "message".toList
    role := "user".toList
    content := [⟨"input_audio".toList, none, some t.toList⟩] }

/-- An agent utterance item as the SDK history carries it. -/
def agentItem (t : String) : HistItem :=
  { itype := "message".toList
    role := "assistant".toList
    content := [⟨"output_audio".toList, none, some t.toList⟩] }

/-- C6 counterexample input: the same two final records delivered in the
two possible orders. -/
def histOrderA : List HistItem := [userItem "Great product", agentItem "Thanks a lot"]

/-- The permuted delivery of `histOrderA`. -/
def histOrderB : List HistItem := [agentItem "Thanks a lot", userItem "Great product"]

/-! ### VoiceAgent lifecycle machine

Events of a `VoiceAgent` run: `history_updated` snapshots, settled
`agent_end` outputs (the only place `checkSurveyCompletion` is called),
the public `start()` / `stop()` calls, and the firing of a `setTimeout`
scheduled by a phrase match.  Each event carries the time at which it is
processed; `setTimeout(() => this.complete(), 1500)` is modelled by
recording the deadline `now + 1500` in the state, a timer able to fire
only at or after its deadline. -/

/-- The debounce delay of `checkSurveyCompletion`, in milliseconds. -/
def graceMs : Nat := 1500

/-- State of a `VoiceAgent` instance: the `isActive` flag and transcript
of the source, the deadlines of pending completion timers, and
instrumentation counting successful `start()`s and `onComplete` calls
(with the time of the last one). -/
structure VAState where
  isActive : Bool
  transcript : List VoiceMessage
  pendingTimers : List Nat
  sessionsStarted : Nat
  completeCalls : Nat
  completedAt : Option Nat
deriving DecidableEq

/-- A fresh `VoiceAgent`: inactive, empty transcript, nothing scheduled. -/
def initialVAState : VAState :=
  { isActive := false
    transcript := []
    pendingTimers := []
    sessionsStarted := 0
    completeCalls := 0
    completedAt := none }

/-- Events processed by the agent. -/
inductive VAEvent
  | historyUpdated (history : List HistItem)
  | agentEnd (output : Str)
  | startCall (connectOk : Bool)
  | stopCall
  | timerFire (deadline : Nat)
deriving DecidableEq

/-- `VoiceAgent.complete()`: a no-op when the agent is inactive;
otherwise it fires `onComplete` once and cleans up
(`isActive := false`). -/
def vaComplete (now : Nat) (s : VAState) : VAState :=
  if s.isActive then
    { s with
        isActive := false
        completeCalls := s.completeCalls + 1
        completedAt := some now }
  else s

/-- One event of the agent lifecycle.  `agent_end` checks the phrases and
on a match schedules completion `graceMs` later; `start()` returns early
when already active and activates only when `connect` succeeds;
`stop()` calls `complete()` directly; a timer fires only if it is still
scheduled and its deadline has passed, and then calls `complete()`. -/
def vaStep (now : Nat) (ev : VAEvent) (s : VAState) : VAState :=
  match ev with
  | .historyUpdated h => { s with transcript := transcriptAfterSync h s.transcript }
  | .agentEnd out =>
      if !out.isEmpty && checkSurveyCompletion out then
        { s with pendingTimers := (now + graceMs) :: s.pendingTimers }
      else s
  | .startCall ok =>
      if s.isActive then s
      else if ok then { s with isActive := true, sessionsStarted := s.sessionsStarted + 1 }
      else s
  | .stopCall => vaComplete now s
  | .timerFire d =>
      if d ∈ s.pendingTimers ∧ d ≤ now then
        vaComplete now { s with pendingTimers := s.pendingTimers.erase d }
      else s

/-- A timed trace of agent events, processed from the fresh state. -/
def runVA (trace : List (Nat × VAEvent)) : VAState :=
  trace.foldl (fun st p => vaStep p.1 p.2 st) initialVAState

/-- The time of a trace event that is a settled, phrase-matching
`agent_end` utterance (`none` otherwise). -/
def matchTime (p : Nat × VAEvent) : Option Nat :=
  match p.2 with
  | .agentEnd out => if !out.isEmpty && checkSurveyCompletion out then some p.1 else none
  | _ => none

/-- All phrase-match times of a trace. -/
def matchTimes (trace : List (Nat × VAEvent)) : List Nat :=
  trace.filterMap matchTime

/-- Sample trace for the debounce witness: a session starts, the agent
closes with a thank-you phrase at time 10, and the scheduled timer fires
at its deadline 1510. -/
def traceDebounce : List (Nat × VAEvent) :=
  [(0, .startCall true),
   (10, .agentEnd "Thank you for your feedback!".toList),
   (1510, .timerFire 1510)]

/-- An agent state mid-session, used to witness the start/complete
guards. -/
def vaActiveSample : VAState :=
  { isActive := true
    transcript := []
    pendingTimers := []
    sessionsStarted := 1
    completeCalls := 0
    completedAt := none }

end VoiceAgent

/-! ### Vapi message handler of `FeedbackPanel`

`handleVapiMessage` (FeedbackPanel.tsx lines 62-184) classifies each SDK
message and appends to the `messages` state: user transcripts and
assistant messages are appended with a last-entry duplicate check;
function-call results are appended without one. -/

namespace FeedbackPanel

/-- A chat entry of `FeedbackPanel`'s `messages` state: `ptype` is
`"user"` or `"ai"`. -/
structure PanelMessage where
  ptype : Str
  text : Str
  isVoice : Bool
deriving DecidableEq

/-- Fields of a `VapiMessage` the handler reads; absent JS fields are
`none`.  String-valued `result`/`output` payloads are modelled. -/
structure VapiMessage where
  mtype : Option Str
  role : Option Str
  transcript : Option Str
  content : Option Str
  message : Option Str
  text : Option Str
  result : Option Str
  output : Option Str
deriving DecidableEq

/-- `getTextContent`: `msg.transcript || msg.content || msg.message ||
msg.text || ""`. -/
def getTextContent (m : VapiMessage) : Str :=
  firstTruthy [m.transcript, m.content, m.message, m.text]

/-- `isUserMessage`: role `user`, a role-less `transcript`, or the
user-specific types. -/
def isUserMessage (m : VapiMessage) : Bool :=
  decide (m.role = some "user".toList) ||
    (decide (m.mtype = some "transcript".toList) &&
      (decide (m.role = none) || decide (m.role = some ([] : Str)))) ||
    decide (m.mtype = some "user-transcript".toList) ||
    decide (m.mtype = some "user-message".toList)

/-- `isAssistantMessage`: role `assistant`, the assistant-specific types,
or a `function-call-result` whose extracted text is truthy. -/
def isAssistantMessage (m : VapiMessage) : Bool :=
  decide (m.role = some "assistant".toList) ||
    decide (m.mtype = some "assistant-message".toList) ||
    decide (m.mtype = some "assistant-response".toList) ||
    (decide (m.mtype = some "function-call-result".toList) && !(getTextContent m).isEmpty)

/-- Append with the duplicate check of the user/assistant branches: when
the last entry has the same type and the same text, the list is returned
unchanged. -/
def appendDedup (ty text : Str) (voice : Bool) (l : List PanelMessage) : List PanelMessage :=
  match l.getLast? with
  | some last => if last.ptype = ty ∧ last.text = text then l else l ++ [⟨ty, text, voice⟩]
  | none => l ++ [⟨ty, text, voice⟩]

/-- Guard of the function-call branch: a `function-call` or
`function-call-result` type with a truthy `result` or `output`. -/
def fnCallGuard (m : VapiMessage) : Bool :=
  (decide (m.mtype = some "function-call".toList) ||
      decide (m.mtype = some "function-call-result".toList)) &&
    (strTruthy m.result || strTruthy m.output)

/-- The `resultText` of the function-call branch: `result` when it is a
string, else `output`. -/
def fnResultText (m : VapiMessage) : Str :=
  match m.result with
  | some r => r
  | none => m.output.getD []

/-- User branch of the handler: a user message with truthy text whose
trim is nonempty is appended with the duplicate check. -/
def userStep (m : VapiMessage) (l : List PanelMessage) : List PanelMessage :=
  if isUserMessage m ∧ ¬(getTextContent m).isEmpty ∧ trimStr (getTextContent m) ≠ [] then
    appendDedup "user".toList (trimStr (getTextContent m)) true l
  else l

/-- Assistant branch of the handler, with the duplicate check. -/
def assistantStep (m : VapiMessage) (l : List PanelMessage) : List PanelMessage :=
  if isAssistantMessage m ∧ ¬(getTextContent m).isEmpty ∧ trimStr (getTextContent m) ≠ [] then
    appendDedup "ai".toList (trimStr (getTextContent m)) false l
  else l

/-- Function-call branch of the handler: a truthy `result`/`output` of a
function-call message is appended with *no* duplicate check. -/
def fnCallStep (m : VapiMessage) (l : List PanelMessage) : List PanelMessage :=
  if fnCallGuard m ∧ ¬(fnResultText m).isEmpty ∧ trimStr (fnResultText m) ≠ [] then
    l ++ [⟨"ai".toList, trimStr (fnResultText m), false⟩]
  else l

/-- `handleVapiMessage` restricted to its effect on the `messages` state:
the user branch, then the assistant branch, then the function-call
branch, applied in source order. -/
def handleVapiMessage (l : List PanelMessage) (m : VapiMessage) : List PanelMessage :=
  fnCallStep m (assistantStep m (userStep m l))

/-- The invariant of claim C7: no two consecutive entries share type and
text. -/
def noConsecDup : List PanelMessage → Bool
  | a :: b :: rest => decide ¬(a.ptype = b.ptype ∧ a.text = b.text) && noConsecDup (b :: rest)
  | _ => true

/-- Does a message reach the function-call append (the branch without a
duplicate check)? -/
def fnCallAppends (m : VapiMessage) : Bool :=
  fnCallGuard m && !(fnResultText m).isEmpty && !(trimStr (fnResultText m)).isEmpty

/-- A `function-call-result` message carrying only a string result, as
the Vapi SDK may re-deliver it. -/
def fnResultMsg : VapiMessage :=
  { mtype := some "function-call-result".toList
    role := none
    transcript := none
    content := none
    message := none
    text := none
    result := some "Done".toList
    output := none }

/-- A plain user transcript message, as the SDK delivers it. -/
def userMsgSample : VapiMessage :=
  { mtype := some "transcript".toList
    role := none
    transcript := some "I love it".toList
    content := none
    message := none
    text := none
    result := none
    output := none }

end FeedbackPanel

/-! ### Survey creation in `AdminPage`

`handleCreateSurvey` (AdminPage.tsx lines 78-151): after `validateForm`
passes, questions are parsed from the topic text (one per line), a fixed
default criteria list is attached, and the survey is posted. -/

namespace AdminPage

/-- The admin form state (`SurveyConfig`). -/
structure SurveyConfig where
  minPrice : ℚ
  maxPrice : ℚ
  surveyTopic : Str
  successCriteria : Str
deriving DecidableEq

/-- `validateForm`: no error is recorded exactly when the minimum price
is nonnegative, the maximum exceeds the minimum, and the trimmed topic is
nonempty with at least 10 characters. -/
def validateForm (c : SurveyConfig) : Bool :=
  !decide (c.minPrice < 0) && !decide (c.maxPrice ≤ c.minPrice) &&
    !(trimStr c.surveyTopic).isEmpty && !decide ((trimStr c.surveyTopic).length < 10)

/-- One evaluation criterion. -/
structure Criterion where
  name : Str
  weight : ℚ
  description : Str
deriving DecidableEq

/-- The hardcoded default criteria of `handleCreateSurvey` with weights
0.5, 0.3 and 0.2. -/
def defaultCriteria : List Criterion :=
  [⟨"Response Quality".toList, 1/2, "Detailed and thoughtful responses".toList⟩,
   ⟨"Relevance".toList, 3/10, "Stayed on topic and answered questions".toList⟩,
   ⟨"Actionability".toList, 1/5, "Provided actionable feedback".toList⟩]

/-- The survey's price range. -/
structure PriceRange where
  min_amount : ℚ
  max_amount : ℚ
deriving DecidableEq

/-- The survey record sent to `apiService.createSurvey`. -/
structure Survey where
  title : Str
  questions : List Str
  criteria : List Criterion
  price_range : PriceRange
deriving DecidableEq

/-- Questions parsed from the topic text: split on newlines, trimmed,
empty lines dropped. -/
def parseQuestions (topic : Str) : List Str :=
  ((topic.splitOn '\n').map trimStr).filter fun q => !q.isEmpty

/-- Sum of the weights of a criteria list. -/
def sumWeights (cs : List Criterion) : ℚ :=
  (cs.map Criterion.weight).sum

/-- `handleCreateSurvey`: `none` models the early returns (validation
failure, no parsed questions); otherwise the survey posted to the
backend, titled by the first question truncated to 100 characters. -/
def handleCreateSurvey (c : SurveyConfig) : Option Survey :=
  if !validateForm c then none
  else if (parseQuestions c.surveyTopic).isEmpty then none
  else some
    { title := ((parseQuestions c.surveyTopic).headD []).take 100
      questions := parseQuestions c.surveyTopic
      criteria := defaultCriteria
      price_range := ⟨c.minPrice, c.maxPrice⟩ }

/-- Sample admin input for the witness. -/
def cfgSample : SurveyConfig :=
  { minPrice := 0
    maxPrice := 1000
    surveyTopic := "How would you rate our product out of 10?".toList
    successCriteria := [] }

/-- The survey `cfgSample` produces. -/
def surveySample : Survey :=
  { title := "How would you rate our product out of 10?".toList
    questions := ["How would you rate our product out of 10?".toList]
    criteria := defaultCriteria
    price_range := ⟨0, 1000⟩ }

end AdminPage

end Customario

namespace Customario

/-! ## Theorems -/

/-! ### Session-end payment (claims C1, C2, C3, C10) -/

theorem paymentContinuation_id (outcome : PaymentOutcome) (s : PanelState) :
    paymentContinuation outcome s = s := by
  cases outcome <;> rfl

theorem calculatedAmount_mem_range {d mn mx : ℚ} (h : mn ≤ mx) :
    mn ≤ FeedbackPanel.calculatedAmount d mn mx ∧
      FeedbackPanel.calculatedAmount d mn mx ≤ mx := by
  unfold FeedbackPanel.calculatedAmount
  exact ⟨le_min h (le_max_left _ _), min_le_left _ _⟩

/-- C1: whenever the session-end effect fires with `minPrice ≤ maxPrice`,
the amount it stores (and displays, and hands to the payment service) lies
in `[minPrice, maxPrice]`: the derived amount is clamped into range before
any use. -/
theorem c1_payment_amount_clamped (inp : PanelInput) (s : PanelState)
    (outcome : PaymentOutcome)
    (hrange : inp.minPrice ≤ inp.maxPrice)
    (hfire : sessionEndCheck inp s = true) :
    inp.minPrice ≤ (sessionEndStep inp outcome s).earnedAmount ∧
      (sessionEndStep inp outcome s).earnedAmount ≤ inp.maxPrice ∧
      (sessionEndStep inp outcome s).lastPaymentAmount
        = some ((sessionEndStep inp outcome s).earnedAmount) := by
  have hmem := calculatedAmount_mem_range (d := inp.sessionDuration) hrange
  have hstep : sessionEndStep inp outcome s
      = { s with
            sessionComplete := true
            earnedAmount := FeedbackPanel.calculatedAmount inp.sessionDuration inp.minPrice inp.maxPrice
            isRecording := false
            paymentDispatches := s.paymentDispatches + 1
            lastPaymentAmount :=
              some (FeedbackPanel.calculatedAmount inp.sessionDuration inp.minPrice inp.maxPrice) } := by
    simp [sessionEndStep, paymentContinuation_id, sessionEndEffect, hfire]
  rw [hstep]
  exact ⟨hmem.1, hmem.2, rfl⟩

/-- Concrete instance of `c1_payment_amount_clamped`: a 5-minute session
with price range `[5, 20]`. -/
theorem c1_payment_amount_clamped_witness :
    ((5 : ℚ) ≤ (20 : ℚ) ∧
      sessionEndCheck ⟨false, 300, 5, 20⟩ initialPanelState = true) ∧
    (5 : ℚ) ≤ (sessionEndStep ⟨false, 300, 5, 20⟩ (.success "ok") initialPanelState).earnedAmount ∧
      (sessionEndStep ⟨false, 300, 5, 20⟩ (.success "ok") initialPanelState).earnedAmount ≤ (20 : ℚ) ∧
      (sessionEndStep ⟨false, 300, 5, 20⟩ (.success "ok") initialPanelState).lastPaymentAmount
        = some ((sessionEndStep ⟨false, 300, 5, 20⟩ (.success "ok") initialPanelState).earnedAmount) :=
  ⟨⟨by norm_num, by decide⟩,
    c1_payment_amount_clamped ⟨false, 300, 5, 20⟩ initialPanelState (.success "ok")
      (by norm_num) (by decide)⟩

/-- Quantity conserved by every observation of the session-end effect:
a dispatch happens exactly when `sessionComplete` flips to `true`. -/
theorem sessionEndStep_dispatch_conserved (inp : PanelInput) (outcome : PaymentOutcome)
    (s : PanelState) :
    (sessionEndStep inp outcome s).paymentDispatches
        + (if (sessionEndStep inp outcome s).sessionComplete then 0 else 1)
      = s.paymentDispatches + (if s.sessionComplete then 0 else 1) := by
  simp only [sessionEndStep, paymentContinuation_id, sessionEndEffect, sessionEndCheck]
  by_cases hc : s.sessionComplete <;> by_cases ha : inp.isSessionActive <;>
    by_cases hd : (0 : ℚ) < inp.sessionDuration <;> simp [hc, ha, hd]

theorem runPanel_dispatch_conserved (steps : List (PanelInput × PaymentOutcome)) :
    ∀ s : PanelState,
      (runPanel steps s).paymentDispatches
          + (if (runPanel steps s).sessionComplete then 0 else 1)
        = s.paymentDispatches + (if s.sessionComplete then 0 else 1) := by
  induction steps with
  | nil => intro s; rfl
  | cons p rest ih =>
      intro s
      have h1 := sessionEndStep_dispatch_conserved p.1 p.2 s
      have h2 := ih (sessionEndStep p.1 p.2 s)
      simpa [runPanel] using h2.trans h1

/-- C2: starting from the initial component state, any sequence of
observations of the session-end condition (effect re-runs, repeated end
requests) dispatches at most one payment: once `sessionComplete` is set
the guard never fires again. -/
theorem c2_at_most_one_payment_dispatch (steps : List (PanelInput × PaymentOutcome)) :
    (runPanel steps initialPanelState).paymentDispatches ≤ 1 := by
  have h := runPanel_dispatch_conserved steps initialPanelState
  have h0 : initialPanelState.paymentDispatches
      + (if initialPanelState.sessionComplete then 0 else 1) = 1 := rfl
  rw [h0] at h
  by_cases hc : (runPanel steps initialPanelState).sessionComplete
  · rw [if_pos hc] at h; omega
  · rw [if_neg (by simp [hc])] at h; omega

/-- C3: when the session-end effect fires, a failed or thrown payment
dispatch neither reverts the completed state nor changes the stored
amount: the resulting state is identical to the one a successful payment
produces, with `sessionComplete = true` and the computed amount kept. -/
theorem c3_payment_failure_nonfatal (inp : PanelInput) (s : PanelState)
    (outcome : PaymentOutcome)
    (hfire : sessionEndCheck inp s = true) :
    (sessionEndStep inp outcome s).sessionComplete = true ∧
      (sessionEndStep inp outcome s).earnedAmount
        = FeedbackPanel.calculatedAmount inp.sessionDuration inp.minPrice inp.maxPrice ∧
      sessionEndStep inp outcome s = sessionEndStep inp (.success "") s := by
  refine ⟨?_, ?_, ?_⟩ <;>
    simp [sessionEndStep, paymentContinuation_id, sessionEndEffect, hfire]

/-- Concrete instance of `c3_payment_failure_nonfatal`: a thrown network
error on a 2-minute session still yields a completed session. -/
theorem c3_payment_failure_nonfatal_witness :
    sessionEndCheck ⟨false, 120, 1, 10⟩ initialPanelState = true ∧
    (sessionEndStep ⟨false, 120, 1, 10⟩ (.thrown "network down") initialPanelState).sessionComplete = true ∧
      (sessionEndStep ⟨false, 120, 1, 10⟩ (.thrown "network down") initialPanelState).earnedAmount
        = FeedbackPanel.calculatedAmount 120 1 10 ∧
      sessionEndStep ⟨false, 120, 1, 10⟩ (.thrown "network down") initialPanelState
        = sessionEndStep ⟨false, 120, 1, 10⟩ (.success "") initialPanelState :=
  ⟨by decide,
    c3_payment_failure_nonfatal ⟨false, 120, 1, 10⟩ initialPanelState
      (.thrown "network down") (by decide)⟩

/-- C10: the amount formula in `FeedbackPanel`'s session-end effect and
the one in the `FeedbackResults` page agree on every input, and both equal
the closed form `clamp(((min+max)/2) * (duration/60) / 10)` into
`[minPrice, maxPrice]`. -/
theorem c10_panel_results_amount_agree (d mn mx : ℚ) :
    FeedbackPanel.calculatedAmount d mn mx = FeedbackResults.earnedAmount d mn mx ∧
      FeedbackPanel.calculatedAmount d mn mx
        = min mx (max mn ((mn + mx) / 2 * (d / 60) / 10)) :=
  ⟨rfl, rfl⟩

/-! ### Completion-phrase detection (claim C4) -/

theorem isPrefixOf_true_iff {l₁ l₂ : Str} : l₁.isPrefixOf l₂ = true ↔ l₁ <+: l₂ := by
  induction l₁ generalizing l₂ with
  | nil => simp [List.isPrefixOf]
  | cons a as ih =>
      cases l₂ with
      | nil => simp [List.isPrefixOf]
      | cons b bs =>
          rw [show (a :: as).isPrefixOf (b :: bs) = (a == b && as.isPrefixOf bs) from rfl,
            List.cons_prefix_cons]
          simp [Bool.and_eq_true, beq_iff_eq, ih]

theorem containsSub_iff (hay needle : Str) :
    containsSub hay needle = true ↔ needle <:+: hay := by
  unfold containsSub
  rw [List.any_eq_true]
  constructor
  · rintro ⟨i, _, hpre⟩
    rw [isPrefixOf_true_iff] at hpre
    exact hpre.isInfix.trans (hay.drop_suffix i).isInfix
  · rintro ⟨s, t, rfl⟩
    refine ⟨s.length, ?_, ?_⟩
    · simp [List.mem_range]
      omega
    · rw [isPrefixOf_true_iff, List.append_assoc, List.drop_left]
      exact ⟨t, rfl⟩

/-- C4: for every agent output text and explicit-end flag, completion is
triggered exactly when the end is explicitly requested or some configured
closing phrase occurs as a case-insensitive substring of the text; a text
containing none of the phrases triggers nothing absent an explicit end. -/
theorem c4_completion_trigger_characterisation (explicitEnd : Bool) (text : Str) :
    VoiceAgent.completionTriggered explicitEnd text = true ↔
      explicitEnd = true ∨ ∃ p ∈ VoiceAgent.closingPhrases, p <:+: lowerStr text := by
  simp only [VoiceAgent.completionTriggered, VoiceAgent.checkSurveyCompletion,
    Bool.or_eq_true, containsSub_iff, VoiceAgent.closingPhrases]
  constructor
  · rintro (he | ((h | h) | h) | h)
    · exact Or.inl he
    all_goals exact Or.inr ⟨_, by simp, h⟩
  · rintro (he | ⟨p, hp, hinf⟩)
    · exact Or.inl he
    · right
      simp only [List.mem_cons, List.mem_singleton, List.not_mem_nil, or_false] at hp
      rcases hp with rfl | rfl | rfl | rfl
      · exact Or.inl (Or.inl (Or.inl hinf))
      · exact Or.inl (Or.inl (Or.inr hinf))
      · exact Or.inl (Or.inr hinf)
      · exact Or.inr hinf

/-! ### Transcript reconciliation (claim C6) -/

theorem transcriptAfterSync_eq (history : List VoiceAgent.HistItem)
    (transcript : List VoiceAgent.VoiceMessage) :
    VoiceAgent.transcriptAfterSync history transcript
      = VoiceAgent.syncTranscriptFromHistory history := by
  unfold VoiceAgent.transcriptAfterSync
  split
  · exact (by assumption : _ = transcript).symm
  · rfl

/-- C6 counterexample: the reconciled transcript is *not* delivery-order
independent.  `histOrderB` is a permutation of `histOrderA` (the same set
of final records, a lower-position record arriving after a higher one),
yet the two reconciled transcripts differ: the sync keeps arrival order
and consults no sequence numbers. -/
theorem c6_counterexample :
    VoiceAgent.histOrderB.Perm VoiceAgent.histOrderA ∧
      VoiceAgent.syncTranscriptFromHistory VoiceAgent.histOrderA
        ≠ VoiceAgent.syncTranscriptFromHistory VoiceAgent.histOrderB := by
  constructor
  · exact List.Perm.swap (VoiceAgent.userItem "Great product")
      (VoiceAgent.agentItem "Thanks a lot") []
  · decide

/-- C6 (amended): the reconciled transcript is a function of the most
recent history snapshot alone — after any sequence of `history_updated`
events the transcript equals the in-array-order extraction of the last
delivered snapshot, whatever transcript state preceded it. -/
theorem c6_transcript_is_last_snapshot (init : List VoiceAgent.VoiceMessage)
    (snapshots : List (List VoiceAgent.HistItem)) (lastSnap : List VoiceAgent.HistItem) :
    (snapshots ++ [lastSnap]).foldl (fun tr h => VoiceAgent.transcriptAfterSync h tr) init
      = VoiceAgent.syncTranscriptFromHistory lastSnap := by
  rw [List.foldl_append]
  simp [transcriptAfterSync_eq]

/-! ### VoiceAgent lifecycle (claims C5, C9) -/

namespace VoiceAgent

theorem vaStep_pendingTimers (now : Nat) (ev : VAEvent) (s : VAState) :
    ∀ d ∈ (vaStep now ev s).pendingTimers,
      d ∈ s.pendingTimers ∨ (matchTime (now, ev) = some now ∧ d = now + graceMs) := by
  intro d hd
  cases ev with
  | historyUpdated h => exact Or.inl hd
  | agentEnd out =>
      by_cases hg : (!out.isEmpty && checkSurveyCompletion out) = true
      · simp only [vaStep, hg, if_pos] at hd
        rcases List.mem_cons.mp hd with h | h
        · exact Or.inr ⟨by simp [matchTime, hg], h⟩
        · exact Or.inl h
      · left
        simpa [vaStep, hg] using hd
  | startCall ok =>
      left
      by_cases ha : s.isActive
      · simpa [vaStep, ha] using hd
      · by_cases hk : ok <;> simpa [vaStep, ha, hk] using hd
  | stopCall =>
      left
      by_cases ha : s.isActive <;> simpa [vaStep, vaComplete, ha] using hd
  | timerFire dl =>
      left
      by_cases hg : dl ∈ s.pendingTimers ∧ dl ≤ now
      · have hmem : d ∈ s.pendingTimers.erase dl := by
          by_cases ha : s.isActive <;> simpa [vaStep, hg, vaComplete, ha] using hd
        exact List.mem_of_mem_erase hmem
      · simpa [vaStep, hg] using hd

theorem vaStep_completedAt (now : Nat) (ev : VAEvent) (s : VAState)
    (hns : ev ≠ VAEvent.stopCall) :
    ∀ tc, (vaStep now ev s).completedAt = some tc →
      s.completedAt = some tc ∨ ∃ d ∈ s.pendingTimers, d ≤ tc := by
  intro tc htc
  cases ev with
  | historyUpdated h => left; simpa [vaStep] using htc
  | agentEnd out =>
      left
      by_cases hg : (!out.isEmpty && checkSurveyCompletion out) = true <;>
        simpa [vaStep, hg] using htc
  | startCall ok =>
      left
      by_cases ha : s.isActive
      · simpa [vaStep, ha] using htc
      · by_cases hk : ok <;> simpa [vaStep, ha, hk] using htc
  | stopCall => exact absurd rfl hns
  | timerFire dl =>
      by_cases hg : dl ∈ s.pendingTimers ∧ dl ≤ now
      · by_cases ha : s.isActive
        · have hnow : now = tc := by
            simpa [vaStep, hg, vaComplete, ha] using htc
          exact Or.inr ⟨dl, hg.1, hnow ▸ hg.2⟩
        · left
          simpa [vaStep, hg, vaComplete, ha] using htc
      · left
        simpa [vaStep, hg] using htc

theorem runVAFrom_spec (tr : List (Nat × VAEvent)) :
    ∀ s : VAState, (∀ p ∈ tr, p.2 ≠ VAEvent.stopCall) →
      (∀ d ∈ (tr.foldl (fun st p => vaStep p.1 p.2 st) s).pendingTimers,
          d ∈ s.pendingTimers ∨ ∃ tm ∈ matchTimes tr, d = tm + graceMs)
      ∧ ∀ tc, (tr.foldl (fun st p => vaStep p.1 p.2 st) s).completedAt = some tc →
          s.completedAt = some tc ∨ (∃ d ∈ s.pendingTimers, d ≤ tc)
            ∨ ∃ tm ∈ matchTimes tr, tm + graceMs ≤ tc := by
  induction tr with
  | nil =>
      intro s _
      exact ⟨fun d hd => Or.inl hd, fun tc htc => Or.inl htc⟩
  | cons p rest ih =>
      intro s hns
      have hnp : p.2 ≠ VAEvent.stopCall := hns p (List.mem_cons_self p rest)
      obtain ⟨ihp, ihc⟩ :=
        ih (vaStep p.1 p.2 s) (fun q hq => hns q (List.mem_cons_of_mem p hq))
      have hfold : (p :: rest).foldl (fun st q => vaStep q.1 q.2 st) s
          = rest.foldl (fun st q => vaStep q.1 q.2 st) (vaStep p.1 p.2 s) := rfl
      have hmtRest : ∀ tm ∈ matchTimes rest, tm ∈ matchTimes (p :: rest) := by
        intro tm htm
        unfold matchTimes at htm ⊢
        rw [List.filterMap_cons]
        cases hmt : matchTime p <;> simp [hmt, htm]
      have hmtP : matchTime p = some p.1 → p.1 ∈ matchTimes (p :: rest) := by
        intro hmt
        unfold matchTimes
        rw [List.filterMap_cons, hmt]
        exact List.mem_cons_self _ _
      constructor
      · intro d hd
        rw [hfold] at hd
        rcases ihp d hd with h | ⟨tm, htm, rfl⟩
        · rcases vaStep_pendingTimers p.1 p.2 s d h with h' | ⟨hm, rfl⟩
          · exact Or.inl h'
          · exact Or.inr ⟨p.1, hmtP hm, rfl⟩
        · exact Or.inr ⟨tm, hmtRest tm htm, rfl⟩
      · intro tc htc
        rw [hfold] at htc
        rcases ihc tc htc with h | ⟨d, hd, hdle⟩ | ⟨tm, htm, hle⟩
        · rcases vaStep_completedAt p.1 p.2 s hnp tc h with h' | ⟨d, hd, hdle⟩
          · exact Or.inl h'
          · exact Or.inr (Or.inl ⟨d, hd, hdle⟩)
        · rcases vaStep_pendingTimers p.1 p.2 s d hd with h' | ⟨hm, rfl⟩
          · exact Or.inr (Or.inl ⟨d, h', hdle⟩)
          · exact Or.inr (Or.inr ⟨p.1, hmtP hm, hdle⟩)
        · exact Or.inr (Or.inr ⟨tm, hmtRest tm htm, hle⟩)

/-- C5: in any timed trace without an explicit `stop()`, if the agent
completes at time `tc` then some settled (`agent_end`) phrase-matching
utterance occurred at an earlier time `tm` with `tm + graceMs ≤ tc`:
completion is debounced by the grace period and is never caused by an
in-flight partial (`history_updated`) event, however its text reads. -/
theorem c5_completion_debounced (trace : List (Nat × VAEvent)) (tc : Nat)
    (hnostop : ∀ p ∈ trace, p.2 ≠ VAEvent.stopCall)
    (hdone : (runVA trace).completedAt = some tc) :
    ∃ tm ∈ matchTimes trace, tm + graceMs ≤ tc ∧ tm < tc := by
  have h := (runVAFrom_spec trace initialVAState hnostop).2 tc hdone
  rcases h with h | ⟨d, hd, _⟩ | ⟨tm, htm, hle⟩
  · exact absurd h (by simp [initialVAState])
  · exact absurd hd (by simp [initialVAState])
  · refine ⟨tm, htm, hle, ?_⟩
    have hg : graceMs = 1500 := rfl
    omega

/-- Concrete instance of `c5_completion_debounced` on `traceDebounce`:
the phrase match at time 10 completes at 1510, not at the match
instant. -/
theorem c5_completion_debounced_witness :
    ((∀ p ∈ traceDebounce, p.2 ≠ VAEvent.stopCall) ∧
      (runVA traceDebounce).completedAt = some 1510) ∧
    ∃ tm ∈ matchTimes traceDebounce, tm + graceMs ≤ 1510 ∧ tm < 1510 :=
  ⟨⟨by decide, by decide⟩,
    c5_completion_debounced traceDebounce 1510 (by decide) (by decide)⟩

theorem vaStep_accounting (now : Nat) (ev : VAEvent) (s : VAState)
    (h : s.completeCalls + (if s.isActive then 1 else 0) = s.sessionsStarted) :
    (vaStep now ev s).completeCalls + (if (vaStep now ev s).isActive then 1 else 0)
      = (vaStep now ev s).sessionsStarted := by
  cases ev with
  | historyUpdated hh => simpa [vaStep] using h
  | agentEnd out =>
      by_cases hg : (!out.isEmpty && checkSurveyCompletion out) = true <;>
        simpa [vaStep, hg] using h
  | startCall ok =>
      by_cases ha : s.isActive
      · simpa [vaStep, ha] using h
      · by_cases hk : ok
        · simp [vaStep, ha, hk] at h ⊢
          omega
        · simpa [vaStep, ha, hk] using h
  | stopCall =>
      by_cases ha : s.isActive
      · simp [vaStep, vaComplete, ha] at h ⊢
        omega
      · simpa [vaStep, vaComplete, ha] using h
  | timerFire dl =>
      by_cases hg : dl ∈ s.pendingTimers ∧ dl ≤ now
      · by_cases ha : s.isActive
        · simp [vaStep, vaComplete, hg, ha] at h ⊢
          omega
        · simpa [vaStep, vaComplete, hg, ha] using h
      · simpa [vaStep, hg] using h

theorem foldVA_accounting (tr : List (Nat × VAEvent)) :
    ∀ s : VAState,
      s.completeCalls + (if s.isActive then 1 else 0) = s.sessionsStarted →
      (tr.foldl (fun st p => vaStep p.1 p.2 st) s).completeCalls
          + (if (tr.foldl (fun st p => vaStep p.1 p.2 st) s).isActive then 1 else 0)
        = (tr.foldl (fun st p => vaStep p.1 p.2 st) s).sessionsStarted := by
  induction tr with
  | nil => intro s h; exact h
  | cons p rest ih =>
      intro s h
      exact ih (vaStep p.1 p.2 s) (vaStep_accounting p.1 p.2 s h)

/-- C9: at most one live session per `VoiceAgent` and at most one
`onComplete` per run: `start()` on an active agent is the identity and
creates no session, `stop()`/`complete()` on an inactive agent is a
no-op, and along every trace the number of `onComplete` calls plus the
currently-live session equals the number of sessions started. -/
theorem c9_lifecycle_idempotent :
    (∀ (s : VAState) (now : Nat) (ok : Bool), s.isActive = true →
        vaStep now (VAEvent.startCall ok) s = s) ∧
    (∀ (s : VAState) (now : Nat), s.isActive = false →
        vaStep now VAEvent.stopCall s = s) ∧
    ∀ trace : List (Nat × VAEvent),
      (runVA trace).completeCalls + (if (runVA trace).isActive then 1 else 0)
        = (runVA trace).sessionsStarted := by
  refine ⟨fun s now ok ha => by simp [vaStep, ha],
    fun s now ha => by simp [vaStep, vaComplete, ha], ?_⟩
  intro trace
  exact foldVA_accounting trace initialVAState rfl

/-- Concrete instance of `c9_lifecycle_idempotent`: a second `start()` on
a live agent and a `stop()` on a fresh agent change nothing, and the
debounce trace accounts one completion for one started session. -/
theorem c9_lifecycle_idempotent_witness :
    (vaActiveSample.isActive = true ∧ initialVAState.isActive = false) ∧
    vaStep 5 (VAEvent.startCall true) vaActiveSample = vaActiveSample ∧
    vaStep 7 VAEvent.stopCall initialVAState = initialVAState ∧
    (runVA traceDebounce).completeCalls
        + (if (runVA traceDebounce).isActive then 1 else 0)
      = (runVA traceDebounce).sessionsStarted :=
  ⟨⟨rfl, rfl⟩, c9_lifecycle_idempotent.1 vaActiveSample 5 true rfl,
    c9_lifecycle_idempotent.2.1 initialVAState 7 rfl,
    c9_lifecycle_idempotent.2.2 traceDebounce⟩

end VoiceAgent

/-! ### Vapi message handler (claim C7) -/

namespace FeedbackPanel

theorem noConsecDup_append (l : List PanelMessage) (x : PanelMessage)
    (hl : noConsecDup l = true)
    (hlast : ∀ a, l.getLast? = some a → ¬(a.ptype = x.ptype ∧ a.text = x.text)) :
    noConsecDup (l ++ [x]) = true := by
  induction l with
  | nil => rfl
  | cons a rest ih =>
      cases rest with
      | nil =>
          have hax := hlast a rfl
          simp [noConsecDup, hax]
      | cons b rest' =>
          simp only [noConsecDup, Bool.and_eq_true, decide_eq_true_eq] at hl
          have hstep : noConsecDup ((b :: rest') ++ [x]) = true :=
            ih hl.2 (fun c hc => hlast c (by rw [List.getLast?_cons_cons]; exact hc))
          simpa [noConsecDup, hl.1] using hstep

theorem appendDedup_noConsecDup (ty text : Str) (voice : Bool) (l : List PanelMessage)
    (hl : noConsecDup l = true) :
    noConsecDup (appendDedup ty text voice l) = true := by
  unfold appendDedup
  cases hg : l.getLast? with
  | none => cases l with
      | nil => rfl
      | cons a rest => simp [List.getLast?_eq_none_iff] at hg
  | some lastMsg =>
      by_cases hd : lastMsg.ptype = ty ∧ lastMsg.text = text
      · simpa [hd] using hl
      · simp only [hd, if_neg]
        refine noConsecDup_append l _ hl fun a ha => ?_
        rw [hg] at ha
        injection ha with ha'
        subst ha'
        exact hd

theorem userStep_noConsecDup (m : VapiMessage) (l : List PanelMessage)
    (hl : noConsecDup l = true) :
    noConsecDup (userStep m l) = true := by
  unfold userStep
  split
  · exact appendDedup_noConsecDup _ _ _ l hl
  · exact hl

theorem assistantStep_noConsecDup (m : VapiMessage) (l : List PanelMessage)
    (hl : noConsecDup l = true) :
    noConsecDup (assistantStep m l) = true := by
  unfold assistantStep
  split
  · exact appendDedup_noConsecDup _ _ _ l hl
  · exact hl

theorem fnCallStep_of_not_appends (m : VapiMessage) (l : List PanelMessage)
    (hm : fnCallAppends m = false) :
    fnCallStep m l = l := by
  unfold fnCallStep
  rw [if_neg]
  rintro ⟨h1, h2, h3⟩
  unfold fnCallAppends at hm
  simp only [h1, Bool.true_and, Bool.and_eq_false_iff, Bool.not_eq_false'] at hm
  rcases hm with hm | hm
  · exact h2 hm
  · exact h3 (by simpa using hm)

theorem handleVapiMessage_noConsecDup (l : List PanelMessage) (m : VapiMessage)
    (hm : fnCallAppends m = false) (hl : noConsecDup l = true) :
    noConsecDup (handleVapiMessage l m) = true := by
  unfold handleVapiMessage
  rw [fnCallStep_of_not_appends m _ hm]
  exact assistantStep_noConsecDup m _ (userStep_noConsecDup m l hl)

/-- C7 counterexample: the claim fails on the code.  A
`function-call-result` message with a string `result` payload, delivered
twice from the empty transcript, produces two consecutive entries with
the same role (`ai`) and identical text: the function-call branch appends
with no duplicate check. -/
theorem c7_counterexample :
    noConsecDup (handleVapiMessage (handleVapiMessage [] fnResultMsg) fnResultMsg) = false := by
  decide

/-- C7 (amended): for every message sequence in which no message reaches
the function-call append (no `function-call`/`function-call-result`
message with a truthy `result`/`output`), the maintained transcript keeps
the invariant that no two consecutive entries share role and text: the
user and assistant branches collapse idempotent re-deliveries against the
last entry. -/
theorem c7_no_consecutive_duplicates (init : List PanelMessage)
    (msgs : List VapiMessage)
    (hinit : noConsecDup init = true)
    (hmsgs : ∀ m ∈ msgs, fnCallAppends m = false) :
    noConsecDup (msgs.foldl handleVapiMessage init) = true := by
  induction msgs generalizing init with
  | nil => exact hinit
  | cons m rest ih =>
      exact ih (handleVapiMessage init m)
        (handleVapiMessage_noConsecDup init m (hmsgs m (List.mem_cons_self m rest)) hinit)
        (fun q hq => hmsgs q (List.mem_cons_of_mem m hq))

/-- Concrete instance of `c7_no_consecutive_duplicates`: the same user
transcript delivered twice yields a single entry, keeping the
invariant. -/
theorem c7_no_consecutive_duplicates_witness :
    (noConsecDup [] = true ∧
      ∀ m ∈ [userMsgSample, userMsgSample], fnCallAppends m = false) ∧
    noConsecDup ([userMsgSample, userMsgSample].foldl handleVapiMessage []) = true :=
  ⟨⟨rfl, by decide⟩,
    c7_no_consecutive_duplicates [] [userMsgSample, userMsgSample] rfl (by decide)⟩

end FeedbackPanel

/-! ### Survey criteria weights (claim C8) -/

/-- C8: every survey `handleCreateSurvey` actually posts to the backend
(i.e. for every admin input that passes validation and parses at least
one question) carries the default criteria, whose weights sum to exactly
1. -/
theorem c8_criteria_weights_sum_one (c : AdminPage.SurveyConfig)
    (survey : AdminPage.Survey)
    (h : AdminPage.handleCreateSurvey c = some survey) :
    AdminPage.sumWeights survey.criteria = 1 := by
  unfold AdminPage.handleCreateSurvey at h
  split at h
  · exact absurd h (by simp)
  · split at h
    · exact absurd h (by simp)
    · injection h with h'
      subst h'
      show AdminPage.sumWeights AdminPage.defaultCriteria = 1
      norm_num [AdminPage.sumWeights, AdminPage.defaultCriteria]

theorem handleCreateSurvey_cfgSample :
    AdminPage.handleCreateSurvey AdminPage.cfgSample = some AdminPage.surveySample := by
  have hv : (!AdminPage.validateForm AdminPage.cfgSample) = false := by decide
  have hq : AdminPage.parseQuestions AdminPage.cfgSample.surveyTopic
      = ["How would you rate our product out of 10?".toList] := by decide
  unfold AdminPage.handleCreateSurvey
  rw [hv, hq]
  simp [AdminPage.surveySample]
  exact ⟨rfl, rfl⟩

/-- Concrete instance of `c8_criteria_weights_sum_one` on `cfgSample`. -/
theorem c8_criteria_weights_sum_one_witness :
    AdminPage.handleCreateSurvey AdminPage.cfgSample = some AdminPage.surveySample ∧
      AdminPage.sumWeights AdminPage.surveySample.criteria = 1 :=
  ⟨handleCreateSurvey_cfgSample,
    c8_criteria_weights_sum_one AdminPage.cfgSample AdminPage.surveySample
      handleCreateSurvey_cfgSample⟩

end Customario
